import Mathlib

/-!
Shallow embedding of the repo-file parser from `yum_repository_info`
(`src/library/yum_repository_info.py`, `run_module`, and the identical
module-level loop in `src/yum_repository_info.py`).

Strings are modelled as `List Char`.  Python dictionaries are modelled as
insertion-ordered association lists with update-in-place semantics.  The
three runtime errors the parse loop can raise are modelled explicitly:
`k, v = line.split("=")` raises `ValueError` when the split yields fewer
or more than two parts, and `test_dict[current_repo]` raises `KeyError`
when `current_repo` is `None` (or absent).
-/

namespace YumRepoInfo

abbrev Str := List Char

/-- Whitespace characters stripped by Python `str.strip()` (the ASCII ones;
lines of a repo file contain no other whitespace). -/
def isPySpace (c : Char) : Bool :=
  c = ' ' || c = '\t' || c = '\n' || c = '\r' || c = '\x0b' || c = '\x0c'

/-- Python `line.strip()`: remove leading and trailing whitespace. -/
def pyStrip (l : Str) : Str :=
  List.rdropWhile isPySpace (List.dropWhile isPySpace l)

/-- Python `line.startswith(c)` for a one-character argument. -/
def startsWithChar (c : Char) : Str → Bool
  | [] => false
  | d :: _ => d = c

/-- Python `s.split(sep)` for a one-character separator: split at every
occurrence of `sep`; the empty string yields `[""]`. -/
def pySplit (sep : Char) : Str → List Str
  | [] => [[]]
  | c :: rest =>
    if c = sep then [] :: pySplit sep rest
    else
      match pySplit sep rest with
      | [] => [[c]]
      | h :: t => (c :: h) :: t

/-- Python `s.replace(c, '')`: delete every occurrence of the character. -/
def pyReplaceDel (c : Char) (l : Str) : Str :=
  l.filter (fun x => decide (x ≠ c))

/-- Insertion-ordered dictionary with string keys, as Python `dict`. -/
abbrev Dict (α : Type) := List (Str × α)

/-- Dictionary lookup, `d[k]`, as an `Option`. -/
def alGet {α : Type} : Dict α → Str → Option α
  | [], _ => none
  | (k', v') :: rest, k => if k' = k then some v' else alGet rest k

/-- Dictionary assignment `d[k] = v`: update in place if the key exists
(keeping its position, as Python dicts do), else append. -/
def alSet {α : Type} : Dict α → Str → α → Dict α
  | [], k, v => [(k, v)]
  | (k', v') :: rest, k, v =>
    if k' = k then (k, v) :: rest else (k', v') :: alSet rest k v

abbrev Settings := Dict Str
abbrev Repo := Dict Settings

/-- Runtime errors of the parse loop: `ValueError` from unpacking
`line.split("=")` into two variables (too few / too many parts), and
`KeyError` from `test_dict[current_repo]`. -/
inductive PyErr : Type
  | valueErrorTooFew
  | valueErrorTooMany
  | keyError
deriving DecidableEq

/-- Loop state: `current_repo` (initially `None`) and `test_dict`. -/
structure PState : Type where
  current : Option Str
  sections : Repo
deriving DecidableEq

def initState : PState := ⟨none, []⟩

/-- The `else` branch of the loop body:
`k, v = line.split("=")` followed by
`test_dict[current_repo][k.strip()] = v.strip()`. -/
def settingStep (st : PState) (line : Str) : Except PyErr PState :=
  match pySplit '=' line with
  | [k, v] =>
    match st.current with
    | none => .error .keyError
    | some cur =>
      match alGet st.sections cur with
      | none => .error .keyError
      | some inner =>
        .ok ⟨st.current, alSet st.sections cur (alSet inner (pyStrip k) (pyStrip v))⟩
  | [_] => .error .valueErrorTooFew
  | _ => .error .valueErrorTooMany

/-- One iteration of the loop body over a single line. -/
def procLine (st : PState) (line : Str) : Except PyErr PState :=
  if pyStrip line = [] then .ok st
  else if startsWithChar '#' line then .ok st
  else if startsWithChar '[' line then
    let current_repo := pyReplaceDel ']' (pyReplaceDel '[' line)
    .ok ⟨some current_repo, alSet st.sections current_repo []⟩
  else settingStep st line

/-- Lines the loop body acts on: a line is skipped exactly when it strips
to empty (`line.strip() == ''`) or starts with `#`. -/
def keepLine (l : Str) : Bool :=
  !(decide (pyStrip l = []) || startsWithChar '#' l)

/-- The whole loop `for line in lines`, stopping at the first raised error. -/
def parseLines (st : PState) : List Str → Except PyErr PState
  | [] => .ok st
  | l :: ls =>
    match procLine st l with
    | .error e => .error e
    | .ok st' => parseLines st' ls

/-- Parse file contents: `open(path).read().split('\n')` then the loop,
returning `test_dict`. -/
def parse (contents : Str) : Except PyErr Repo :=
  (parseLines initState (pySplit '\n' contents)).map (fun st => st.sections)

/-- View extractor: `some` of the produced RepoView, `none` on any error. -/
def parseView (contents : Str) : Option Repo :=
  match parse contents with
  | .ok r => some r
  | .error _ => none

/-- The result payload of `run_module`: `changed`, `failed`, and
`repo_view` (initially the literal string `'[]'`, on success a dict). -/
inductive RVal : Type
  | str (s : Str)
  | view (r : Repo)
deriving DecidableEq

structure ResultDict : Type where
  changed : Bool
  failed : Bool
  repo_view : RVal
deriving DecidableEq

/-- How a `run_module` call ends: `module.exit_json(**result)`,
`module.fail_json(msg, **result)`, an uncaught exception from the parse
loop, or an uncaught `OSError` from `open()`/`read()` (a path that passes
the `exists` check but cannot be opened or read). -/
inductive RunOutcome : Type
  | exited (r : ResultDict)
  | failedJson (msg : Str) (r : ResultDict)
  | crashed (e : PyErr)
  | crashedRead
deriving DecidableEq

/-- The function `validate_path`: `exists(path_spec)`, with the file system
passed in as the predicate `ex`. -/
def validate_path (ex : Str → Bool) (path_spec : Str) : Bool :=
  ex path_spec

/-- The function `run_module`, after argument parsing: the file system is
modelled by the predicate `ex` (which paths `os.path.exists` reports) and
the partial contents function `readFile`, which returns `none` when
`open(path, 'r').read()` raises `OSError` (e.g. an existing file without
read permission); `check_mode` mirrors `module.check_mode`. -/
def run_module (check_mode : Bool) (ex : Str → Bool)
    (readFile : Str → Option Str) (path : Str) : RunOutcome :=
  let result0 : ResultDict := ⟨false, false, .str ['[', ']']⟩
  if check_mode then .exited result0
  else if validate_path ex path = false then
    .failedJson ("The path does not exist".toList) result0
  else
    match readFile path with
    | none => .crashedRead
    | some contents =>
      match parseLines initState (pySplit '\n' contents) with
      | .error e => .crashed e
      | .ok st => .exited ⟨true, false, .view st.sections⟩

deriving instance DecidableEq for Except

/-! Helper lemmas about the string primitives. -/

theorem dropWhile_append_all {p : Char → Bool} {ws : Str} (t : Str)
    (h : ∀ c ∈ ws, p c = true) :
    List.dropWhile p (ws ++ t) = List.dropWhile p t := by
  induction ws with
  | nil => rfl
  | cons c ws ih =>
    have hc : p c = true := h c (List.mem_cons_self c ws)
    simp only [List.cons_append, List.dropWhile_cons, hc, if_true]
    exact ih (fun d hd => h d (List.mem_cons_of_mem c hd))

theorem rdropWhile_append_all {p : Char → Bool} {ws : Str} (t : Str)
    (h : ∀ c ∈ ws, p c = true) :
    List.rdropWhile p (t ++ ws) = List.rdropWhile p t := by
  unfold List.rdropWhile
  rw [List.reverse_append, dropWhile_append_all t.reverse
    (fun d hd => h d (List.mem_reverse.mp hd))]

theorem dropWhile_append_cases (p : Char → Bool) (a b : Str) :
    List.dropWhile p (a ++ b) =
      if List.dropWhile p a = [] then List.dropWhile p b
      else List.dropWhile p a ++ b := by
  induction a with
  | nil => simp
  | cons c a ih =>
    by_cases hc : p c = true
    · simpa [List.dropWhile_cons, hc] using ih
    · have hc' : p c = false := by
        cases h : p c
        · rfl
        · exact absurd h hc
      simp [List.dropWhile_cons, hc']

theorem pyStrip_pad {wsA wsB : Str} (s : Str)
    (ha : ∀ c ∈ wsA, isPySpace c = true) (hb : ∀ c ∈ wsB, isPySpace c = true) :
    pyStrip (wsA ++ s ++ wsB) = pyStrip s := by
  unfold pyStrip
  rw [List.append_assoc, dropWhile_append_all (s ++ wsB) ha,
    dropWhile_append_cases]
  by_cases hs : List.dropWhile isPySpace s = []
  · rw [if_pos hs, hs, List.dropWhile_eq_nil_iff.mpr hb]
  · rw [if_neg hs, rdropWhile_append_all _ hb]

theorem pyStrip_ne_nil_of_mem {c : Char} {l : Str}
    (hc : isPySpace c = false) (hm : c ∈ l) : pyStrip l ≠ [] := by
  intro h
  have hmem : c ∈ List.dropWhile isPySpace l := by
    have := List.takeWhile_append_dropWhile (p := isPySpace) (l := l)
    rw [← this] at hm
    rcases List.mem_append.mp hm with h1 | h2
    · exact absurd (List.mem_takeWhile_imp h1) (by simp [hc])
    · exact h2
  have := List.rdropWhile_eq_nil_iff.mp h c hmem
  rw [hc] at this
  exact Bool.false_ne_true this

theorem pySplit_ne_nil (sep : Char) (l : Str) : pySplit sep l ≠ [] := by
  cases l with
  | nil => simp [pySplit]
  | cons c rest =>
    unfold pySplit
    by_cases h : c = sep
    · simp [h]
    · cases hs : pySplit sep rest <;> simp [h, hs]

theorem pySplit_not_mem {sep : Char} {l : Str} (h : sep ∉ l) :
    pySplit sep l = [l] := by
  induction l with
  | nil => rfl
  | cons c rest ih =>
    have hc : ¬c = sep := fun hc => h (hc ▸ List.mem_cons_self c rest)
    have hr : sep ∉ rest := fun hr => h (List.mem_cons_of_mem c hr)
    unfold pySplit
    rw [if_neg hc, ih hr]

theorem pySplit_append_left {sep : Char} {a : Str} (b : Str) (ha : sep ∉ a) :
    pySplit sep (a ++ sep :: b) = a :: pySplit sep b := by
  induction a with
  | nil => simp [pySplit]
  | cons c a ih =>
    have hc : ¬c = sep := fun hc => ha (hc ▸ List.mem_cons_self c a)
    have ha' : sep ∉ a := fun h => ha (List.mem_cons_of_mem c h)
    simp only [List.cons_append]
    show (if c = sep then [] :: pySplit sep (a ++ sep :: b)
        else match pySplit sep (a ++ sep :: b) with
          | [] => [[c]]
          | h :: t => (c :: h) :: t) = (c :: a) :: pySplit sep b
    rw [if_neg hc, ih ha']

theorem pySplit_two_of_single {sep : Char} {a b : Str}
    (ha : sep ∉ a) (hb : sep ∉ b) :
    pySplit sep (a ++ sep :: b) = [a, b] := by
  rw [pySplit_append_left b ha, pySplit_not_mem hb]

theorem pySplit_long_of_mem {sep : Char} {l : Str} (h : sep ∈ l) :
    ∃ x y t, pySplit sep l = x :: y :: t := by
  induction l with
  | nil => cases h
  | cons c rest ih =>
    by_cases hc : c = sep
    · obtain ⟨h0, t0, ht⟩ := List.exists_cons_of_ne_nil (pySplit_ne_nil sep rest)
      exact ⟨[], h0, t0, by unfold pySplit; rw [if_pos hc, ht]⟩
    · have hr : sep ∈ rest := by
        rcases List.mem_cons.mp h with h1 | h2
        · exact absurd h1.symm hc
        · exact h2
      obtain ⟨x, y, t, hxyt⟩ := ih hr
      exact ⟨c :: x, y, t, by unfold pySplit; rw [if_neg hc, hxyt]⟩

/-! Helper lemmas about the parse loop. -/

theorem procLine_skip {l : Str} (st : PState)
    (h : pyStrip l = [] ∨ startsWithChar '#' l = true) :
    procLine st l = .ok st := by
  unfold procLine
  rcases h with h | h
  · rw [if_pos h]
  · by_cases h0 : pyStrip l = []
    · rw [if_pos h0]
    · rw [if_neg h0, if_pos h]

theorem parseLines_append (st : PState) (a b : List Str) :
    parseLines st (a ++ b) =
      match parseLines st a with
      | .ok st' => parseLines st' b
      | .error e => .error e := by
  induction a generalizing st with
  | nil => rfl
  | cons l ls ih =>
    simp only [List.cons_append]
    cases hp : procLine st l with
    | error e => simp only [parseLines, hp]
    | ok st' =>
      simp only [parseLines, hp]
      exact ih st'

theorem parseLines_all_skip (st : PState) (pre : List Str)
    (h : ∀ x ∈ pre, pyStrip x = [] ∨ startsWithChar '#' x = true) :
    parseLines st pre = .ok st := by
  induction pre with
  | nil => rfl
  | cons l ls ih =>
    unfold parseLines
    rw [procLine_skip st (h l (List.mem_cons_self l ls))]
    exact ih (fun x hx => h x (List.mem_cons_of_mem l hx))

theorem procLine_setting {l : Str} (st : PState)
    (h1 : pyStrip l ≠ []) (h2 : startsWithChar '#' l = false)
    (h3 : startsWithChar '[' l = false) :
    procLine st l = settingStep st l := by
  unfold procLine
  rw [if_neg h1, if_neg (by simp [h2]), if_neg (by simp [h3])]

/-! The claims. -/

/-- C1 counterexample: the line `baseurl=http://x/y?a=b` does not parse to
the value `http://x/y?a=b`; `k, v = line.split("=")` splits at every `=`
and raises `ValueError` (too many values to unpack), so the whole parse
aborts with no RepoView. -/
theorem C1_counterexample :
    parse ("[r]\nbaseurl=http://x/y?a=b".toList) = .error .valueErrorTooMany ∧
    parse ("[r]\nbaseurl=http://x/y?a=b".toList) ≠
      .ok [("r".toList, [("baseurl".toList, "http://x/y?a=b".toList)])] :=
  ⟨rfl, by decide⟩

/-- C1 (amended): a Setting line is split into key and value only when it
contains exactly one `=` (then the key is everything before it and the
value everything after it); a Setting line whose value contains an
embedded `=` makes the parse fail with the too-many-values `ValueError`
instead of preserving the value. -/
theorem C1_single_equals_only (st : PState) (cur : Str) (inner : Settings)
    (a b : Str) (hcur : st.current = some cur)
    (hin : alGet st.sections cur = some inner) (ha : '=' ∉ a) :
    ('=' ∉ b → settingStep st (a ++ '=' :: b) =
      .ok ⟨st.current, alSet st.sections cur (alSet inner (pyStrip a) (pyStrip b))⟩) ∧
    ('=' ∈ b → settingStep st (a ++ '=' :: b) = .error .valueErrorTooMany) := by
  constructor
  · intro hb
    have hsplit := pySplit_two_of_single ha hb
    simp only [settingStep, hsplit, hcur, hin]
  · intro hb
    obtain ⟨x, y, t, hxyt⟩ := pySplit_long_of_mem hb
    have hsplit : pySplit '=' (a ++ '=' :: b) = a :: x :: y :: t := by
      rw [pySplit_append_left b ha, hxyt]
    simp only [settingStep, hsplit]

/-- C1 witness: concrete instance of the amended claim at the line
`baseurl=http://x/y?a=b` inside section `r`. -/
theorem C1_single_equals_only_witness :
    ('=' ∉ "baseurl".toList) ∧ ('=' ∈ "http://x/y?a=b".toList) ∧
    settingStep ⟨some ("r".toList), [("r".toList, [])]⟩
        ("baseurl".toList ++ '=' :: "http://x/y?a=b".toList) =
      .error .valueErrorTooMany :=
  ⟨by decide, by decide,
    (C1_single_equals_only ⟨some ("r".toList), [("r".toList, [])]⟩ ("r".toList) []
      ("baseurl".toList) ("http://x/y?a=b".toList) rfl rfl (by decide)).2 (by decide)⟩

/-- C2 counterexample: with input `[s]`, `a=1`, `[s]`, the second header
does not leave the existing mapping for `s` unchanged: the parse returns
`s` mapped to the empty mapping, not to the mapping holding `a=1`. -/
theorem C2_counterexample :
    parse ("[s]\na=1\n[s]".toList) = .ok [("s".toList, [])] ∧
    parse ("[s]\na=1\n[s]".toList) ≠
      .ok [("s".toList, [("a".toList, "1".toList)])] :=
  ⟨rfl, by decide⟩

/-- C2 (amended): every header line assigns a fresh empty Setting mapping
to its section name unconditionally (`test_dict[current_repo] = dict()`),
so a second header with an already-present name resets that section's
mapping to empty rather than leaving it unchanged. -/
theorem C2_header_overwrites (st : PState) (line : Str)
    (h1 : pyStrip line ≠ []) (h2 : startsWithChar '#' line = false)
    (h3 : startsWithChar '[' line = true) :
    procLine st line =
      .ok ⟨some (pyReplaceDel ']' (pyReplaceDel '[' line)),
        alSet st.sections (pyReplaceDel ']' (pyReplaceDel '[' line)) []⟩ := by
  unfold procLine
  rw [if_neg h1, if_neg (by simp [h2]), if_pos h3]

/-- C2 witness: a header `[s]` processed in a state where `s` already maps
`a` to `1` resets the section to the empty mapping. -/
theorem C2_header_overwrites_witness :
    (pyStrip ("[s]".toList) ≠ []) ∧
    (startsWithChar '#' ("[s]".toList) = false) ∧
    (startsWithChar '[' ("[s]".toList) = true) ∧
    procLine ⟨some ("s".toList), [("s".toList, [("a".toList, "1".toList)])]⟩
        ("[s]".toList) =
      .ok ⟨some ("s".toList), [("s".toList, [])]⟩ :=
  ⟨by decide, by decide, by decide, by
    have h := C2_header_overwrites
      ⟨some ("s".toList), [("s".toList, [("a".toList, "1".toList)])]⟩ ("[s]".toList)
      (by decide) (by decide) (by decide)
    exact h⟩

/-- C3: an input containing a non-empty, non-comment, non-header line with
no `=` never yields a RepoView (the parse always returns an error), and
whenever the lines before that line process without error, the parse
aborts exactly there with the malformed-line `ValueError` (the unpack of
`line.split("=")` finds too few values). -/
theorem C3_no_equals_aborts (pre post : List Str) (l : Str)
    (hmem : '=' ∉ l) (hne : pyStrip l ≠ [])
    (hc : startsWithChar '#' l = false) (hb : startsWithChar '[' l = false) :
    (∃ e, parseLines initState (pre ++ l :: post) = .error e) ∧
    (∀ st, parseLines initState pre = .ok st →
      parseLines initState (pre ++ l :: post) = .error .valueErrorTooFew) := by
  have hline : ∀ st : PState, procLine st l = .error .valueErrorTooFew := by
    intro st
    rw [procLine_setting st hne hc hb]
    simp only [settingStep, pySplit_not_mem hmem]
  rw [parseLines_append]
  cases hp : parseLines initState pre with
  | error e =>
    refine ⟨⟨e, rfl⟩, ?_⟩
    intro st hst
    exact Except.noConfusion hst
  | ok st =>
    have hrest : parseLines st (l :: post) = .error .valueErrorTooFew := by
      simp only [parseLines, hline st]
    exact ⟨⟨.valueErrorTooFew, hrest⟩, fun st' _ => hrest⟩

/-- C3 witness: the spec's own example, `[main]` followed by
`noequalssign`, aborts with the malformed-line error. -/
theorem C3_no_equals_aborts_witness :
    ('=' ∉ "noequalssign".toList) ∧ (pyStrip ("noequalssign".toList) ≠ []) ∧
    (startsWithChar '#' ("noequalssign".toList) = false) ∧
    (startsWithChar '[' ("noequalssign".toList) = false) ∧
    parseLines initState (["[main]".toList] ++ "noequalssign".toList :: []) =
      .error .valueErrorTooFew :=
  ⟨by decide, by decide, by decide, by decide,
    (C3_no_equals_aborts ["[main]".toList] [] "noequalssign".toList
      (by decide) (by decide) (by decide) (by decide)).2
      ⟨some ("main".toList), [("main".toList, [])]⟩ rfl⟩

/-- C4 counterexample: the single orphan line `noeq` (no preceding section
header) makes the parse fail with the malformed-line `ValueError` raised
by the split, not with the orphan `KeyError`: the claim's universal
"fails with OrphanSettingError" is false. -/
theorem C4_counterexample :
    parse ("noeq".toList) = .error .valueErrorTooFew ∧
    PyErr.valueErrorTooFew ≠ PyErr.keyError :=
  ⟨rfl, by decide⟩

/-- C4 (amended): when the first non-empty, non-comment, non-header line
of the input appears before any section header and contains exactly one
`=` (as in `foo=bar`), the parse aborts with the orphan `KeyError`
(`test_dict[None]`) and returns no partial result; an orphan line without
exactly one `=` instead aborts with the `ValueError` from the split. -/
theorem C4_orphan_needs_single_equals (pre post : List Str) (a b : Str)
    (hpre : ∀ x ∈ pre, pyStrip x = [] ∨ startsWithChar '#' x = true)
    (ha : '=' ∉ a) (hb : '=' ∉ b)
    (hc : startsWithChar '#' (a ++ '=' :: b) = false)
    (hbr : startsWithChar '[' (a ++ '=' :: b) = false) :
    parseLines initState (pre ++ (a ++ '=' :: b) :: post) = .error .keyError := by
  have hmem : '=' ∈ a ++ '=' :: b :=
    List.mem_append_right a (List.mem_cons_self '=' b)
  have hne : pyStrip (a ++ '=' :: b) ≠ [] :=
    pyStrip_ne_nil_of_mem (by decide) hmem
  have hsplit := pySplit_two_of_single ha hb
  have hline : procLine initState (a ++ '=' :: b) = .error .keyError := by
    rw [procLine_setting initState hne hc hbr]
    simp only [settingStep, hsplit, initState]
  rw [parseLines_append, parseLines_all_skip initState pre hpre]
  simp only [parseLines, hline]

/-- C4 witness: the spec's example `foo=bar` with no preceding header
aborts with the orphan `KeyError`. -/
theorem C4_orphan_needs_single_equals_witness :
    ('=' ∉ "foo".toList) ∧ ('=' ∉ "bar".toList) ∧
    (startsWithChar '#' ("foo".toList ++ '=' :: "bar".toList) = false) ∧
    (startsWithChar '[' ("foo".toList ++ '=' :: "bar".toList) = false) ∧
    parseLines initState ([] ++ ("foo".toList ++ '=' :: "bar".toList) :: []) =
      .error .keyError :=
  ⟨by decide, by decide, by decide, by decide,
    C4_orphan_needs_single_equals [] [] ("foo".toList) ("bar".toList)
      (by simp) (by decide) (by decide) (by decide) (by decide)⟩

/-- C5 counterexample: a path that exists but cannot be read does not
fail with the not-found error; it passes `validate_path` (which only
calls `exists`) and then crashes with the uncaught `OSError` from
`open()`, so the claim's "every path that does not reference an existing,
readable file" is refuted on the unreadable-file case. -/
theorem C5_counterexample :
    run_module false (fun _ => true) (fun _ => none) ("/root/secret.repo".toList) =
      .crashedRead ∧
    RunOutcome.crashedRead ≠
      .failedJson ("The path does not exist".toList) ⟨false, false, .str ['[', ']']⟩ :=
  ⟨rfl, by decide⟩

/-- C5 (amended): when the given path does not exist (`validate_path`
returns false), `run_module` halts in `module.fail_json` with the message
`The path does not exist` and the result still carries the initial
placeholder string `'[]'` as `repo_view`, so no (partial) RepoView is
returned; a path that exists but cannot be read instead passes the
existence check and crashes with the uncaught error from `open()`,
again returning no RepoView but not the not-found failure. -/
theorem C5_missing_path_fails (ex : Str → Bool) (readFile : Str → Option Str)
    (path : Str) :
    (ex path = false →
      run_module false ex readFile path =
        .failedJson ("The path does not exist".toList)
          ⟨false, false, .str ['[', ']']⟩) ∧
    (ex path = true → readFile path = none →
      run_module false ex readFile path = .crashedRead) := by
  constructor
  · intro h
    simp [run_module, validate_path, h]
  · intro h hr
    simp [run_module, validate_path, h, hr]

/-- C5 witness: a file system in which no path exists makes `run_module`
fail with the not-found message, and one in which the path exists but
reading raises makes it crash in the read. -/
theorem C5_missing_path_fails_witness :
    ((fun _ : Str => false) ("/does/not/exist".toList) = false) ∧
    run_module false (fun _ => false) (fun _ => none) ("/does/not/exist".toList) =
      .failedJson ("The path does not exist".toList) ⟨false, false, .str ['[', ']']⟩ ∧
    ((fun _ : Str => true) ("/unreadable.repo".toList) = true) ∧
    run_module false (fun _ => true) (fun _ => none) ("/unreadable.repo".toList) =
      .crashedRead :=
  ⟨rfl,
    (C5_missing_path_fails (fun _ => false) (fun _ => none)
      ("/does/not/exist".toList)).1 rfl,
    rfl,
    (C5_missing_path_fails (fun _ => true) (fun _ => none)
      ("/unreadable.repo".toList)).2 rfl rfl⟩

/-- C6: a line is skipped as a comment exactly when its very first
character is `#` (`line.startswith('#')`); a line with leading whitespace
before the `#` is not treated as a comment and falls through past the
section-header check into the setting-line branch. -/
theorem C6_comment_hash_at_start (st : PState) (l ws rest : Str)
    (hws : ws ≠ []) (hall : ∀ c ∈ ws, isPySpace c = true)
    (hl : startsWithChar '#' l = true) :
    procLine st l = .ok st ∧
    procLine st (ws ++ '#' :: rest) = settingStep st (ws ++ '#' :: rest) := by
  constructor
  · exact procLine_skip st (Or.inr hl)
  · obtain ⟨w, ws', rfl⟩ := List.exists_cons_of_ne_nil hws
    have hw : isPySpace w = true := hall w (List.mem_cons_self w ws')
    have hne : pyStrip ((w :: ws') ++ '#' :: rest) ≠ [] :=
      pyStrip_ne_nil_of_mem (by decide)
        (List.mem_append_right _ (List.mem_cons_self '#' rest))
    have hwh : w ≠ '#' := by
      intro h
      rw [h] at hw
      exact absurd hw (by decide)
    have hwb : w ≠ '[' := by
      intro h
      rw [h] at hw
      exact absurd hw (by decide)
    have h2 : startsWithChar '#' ((w :: ws') ++ '#' :: rest) = false := by
      simp [startsWithChar, hwh]
    have h3 : startsWithChar '[' ((w :: ws') ++ '#' :: rest) = false := by
      simp [startsWithChar, hwb]
    exact procLine_setting st hne h2 h3

/-- C6 witness: `#x` is skipped while ` #c` (leading space) reaches the
setting-line branch. -/
theorem C6_comment_hash_at_start_witness :
    ([' '] ≠ ([] : Str)) ∧ (∀ c ∈ [' '], isPySpace c = true) ∧
    (startsWithChar '#' ("#x".toList) = true) ∧
    (procLine initState ("#x".toList) = .ok initState ∧
      procLine initState ([' '] ++ '#' :: "c".toList) =
        settingStep initState ([' '] ++ '#' :: "c".toList)) :=
  ⟨by decide, by decide, by decide,
    C6_comment_hash_at_start initState ("#x".toList) [' '] ("c".toList)
      (by decide) (by decide) (by decide)⟩

/-- C7: a Setting line `key = value` with arbitrary whitespace around key
and value stores the key with surrounding whitespace trimmed and the value
with surrounding whitespace trimmed, in the current section. -/
theorem C7_keys_values_trimmed (st : PState) (cur : Str) (inner : Settings)
    (k v wsA wsB wsC wsD : Str)
    (hcur : st.current = some cur) (hin : alGet st.sections cur = some inner)
    (hA : ∀ c ∈ wsA, isPySpace c = true) (hB : ∀ c ∈ wsB, isPySpace c = true)
    (hC2 : ∀ c ∈ wsC, isPySpace c = true) (hD : ∀ c ∈ wsD, isPySpace c = true)
    (hk : '=' ∉ k) (hv : '=' ∉ v)
    (h2 : startsWithChar '#' (wsA ++ k ++ wsB ++ '=' :: (wsC ++ v ++ wsD)) = false)
    (h3 : startsWithChar '[' (wsA ++ k ++ wsB ++ '=' :: (wsC ++ v ++ wsD)) = false) :
    procLine st (wsA ++ k ++ wsB ++ '=' :: (wsC ++ v ++ wsD)) =
      .ok ⟨st.current, alSet st.sections cur (alSet inner (pyStrip k) (pyStrip v))⟩ := by
  have hkey : '=' ∉ wsA ++ k ++ wsB := by
    intro hm
    rcases List.mem_append.mp hm with hm' | hmB
    · rcases List.mem_append.mp hm' with hmA | hmk
      · exact absurd (hA _ hmA) (by decide)
      · exact hk hmk
    · exact absurd (hB _ hmB) (by decide)
  have hval : '=' ∉ wsC ++ v ++ wsD := by
    intro hm
    rcases List.mem_append.mp hm with hm' | hmD
    · rcases List.mem_append.mp hm' with hmC | hmv
      · exact absurd (hC2 _ hmC) (by decide)
      · exact hv hmv
    · exact absurd (hD _ hmD) (by decide)
  have hmem : '=' ∈ wsA ++ k ++ wsB ++ '=' :: (wsC ++ v ++ wsD) :=
    List.mem_append_right _ (List.mem_cons_self '=' _)
  have hne := pyStrip_ne_nil_of_mem (c := '=') (by decide) hmem
  rw [procLine_setting st hne h2 h3]
  have hsplit := pySplit_two_of_single hkey hval
  simp only [settingStep, hsplit, hcur, hin, pyStrip_pad k hA hB,
    pyStrip_pad v hC2 hD]

/-- C7 witness: the line `gpgcheck = 1` inside section `main` stores key
`gpgcheck` and value `1`, both trimmed. -/
theorem C7_keys_values_trimmed_witness :
    ('=' ∉ "gpgcheck".toList) ∧ ('=' ∉ "1".toList) ∧
    procLine ⟨some ("main".toList), [("main".toList, [])]⟩
        ([] ++ "gpgcheck".toList ++ [' '] ++ '=' :: ([' '] ++ "1".toList ++ [])) =
      .ok ⟨some ("main".toList),
        [("main".toList, [("gpgcheck".toList, "1".toList)])]⟩ :=
  ⟨by decide, by decide, by
    have h := C7_keys_values_trimmed
      ⟨some ("main".toList), [("main".toList, [])]⟩ ("main".toList) []
      ("gpgcheck".toList) ("1".toList) [] [' '] [' '] [] rfl rfl
      (by decide) (by decide) (by decide) (by decide) (by decide) (by decide)
      (by decide) (by decide)
    exact h⟩

/-- C8: comment lines, empty lines and whitespace-only lines contribute
nothing and do not alter the parser state: running the loop over any line
list gives the same outcome as running it over the list with all such
lines removed. -/
theorem C8_skipped_lines_inert (st : PState) (lines : List Str) :
    parseLines st lines = parseLines st (lines.filter keepLine) := by
  induction lines generalizing st with
  | nil => rfl
  | cons l ls ih =>
    by_cases h : pyStrip l = [] ∨ startsWithChar '#' l = true
    · have hskip : procLine st l = .ok st := procLine_skip st h
      have hp : keepLine l = false := by
        rcases h with h | h <;> simp [keepLine, h]
      rw [List.filter_cons, if_neg (by simp [hp])]
      simp only [parseLines, hskip]
      exact ih st
    · have hp : keepLine l = true := by
        push_neg at h
        simp [keepLine, h.1, h.2]
      rw [List.filter_cons, if_pos (by simp [hp])]
      simp only [parseLines]
      cases hq : procLine st l with
      | error e => rfl
      | ok st' => exact ih st'

/-- C9: the parse is a pure function of the file contents; two parses of
the same contents that return a RepoView return the same RepoView. -/
theorem C9_parse_deterministic (contents : Str) (v1 v2 : Repo)
    (h1 : parse contents = .ok v1) (h2 : parse contents = .ok v2) :
    v1 = v2 := by
  rw [h1] at h2
  exact Except.ok.inj h2

/-- C9 witness: the spec's worked example parses to its expected RepoView,
and two parses of it agree. -/
theorem C9_parse_deterministic_witness :
    parse ("[main]\nenabled=1\ngpgcheck = 1\n# a comment\n\n[updates]\nbaseurl=http://example.com/updates".toList) =
      .ok [("main".toList, [("enabled".toList, "1".toList), ("gpgcheck".toList, "1".toList)]),
        ("updates".toList, [("baseurl".toList, "http://example.com/updates".toList)])] ∧
    [("main".toList, [("enabled".toList, "1".toList), ("gpgcheck".toList, "1".toList)]),
        ("updates".toList, [("baseurl".toList, "http://example.com/updates".toList)])] =
      ([("main".toList, [("enabled".toList, "1".toList), ("gpgcheck".toList, "1".toList)]),
        ("updates".toList, [("baseurl".toList, "http://example.com/updates".toList)])] : Repo) :=
  ⟨rfl, C9_parse_deterministic
    ("[main]\nenabled=1\ngpgcheck = 1\n# a comment\n\n[updates]\nbaseurl=http://example.com/updates".toList)
    _ _ rfl rfl⟩

/-- C10: a line beginning with any non-empty run of whitespace followed by
`[` is not recognized as a section header; it falls through to the
setting-line branch and is split on `=`, so without any `=` it fails with
the malformed-line `ValueError` rather than opening a section. -/
theorem C10_indented_header_not_section (st : PState) (ws rest : Str)
    (hws : ws ≠ []) (hall : ∀ c ∈ ws, isPySpace c = true) :
    procLine st (ws ++ '[' :: rest) = settingStep st (ws ++ '[' :: rest) ∧
    ('=' ∉ ws ++ '[' :: rest →
      procLine st (ws ++ '[' :: rest) = .error .valueErrorTooFew) := by
  obtain ⟨w, ws', rfl⟩ := List.exists_cons_of_ne_nil hws
  have hw : isPySpace w = true := hall w (List.mem_cons_self w ws')
  have hne : pyStrip ((w :: ws') ++ '[' :: rest) ≠ [] :=
    pyStrip_ne_nil_of_mem (c := '[') (by decide)
      (List.mem_append_right _ (List.mem_cons_self '[' rest))
  have hwh : w ≠ '#' := by
    intro h
    rw [h] at hw
    exact absurd hw (by decide)
  have hwb : w ≠ '[' := by
    intro h
    rw [h] at hw
    exact absurd hw (by decide)
  have h2 : startsWithChar '#' ((w :: ws') ++ '[' :: rest) = false := by
    simp [startsWithChar, hwh]
  have h3 : startsWithChar '[' ((w :: ws') ++ '[' :: rest) = false := by
    simp [startsWithChar, hwb]
  have hset := procLine_setting st hne h2 h3
  refine ⟨hset, fun hm => ?_⟩
  rw [hset]
  simp only [settingStep, pySplit_not_mem hm]

/-- C10 witness: the indented header `  [main]` (two leading spaces) is
handled by the setting branch and aborts for lack of `=`. -/
theorem C10_indented_header_not_section_witness :
    ([' ', ' '] ≠ ([] : Str)) ∧ (∀ c ∈ [' ', ' '], isPySpace c = true) ∧
    procLine initState ([' ', ' '] ++ '[' :: "main]".toList) =
      .error .valueErrorTooFew :=
  ⟨by decide, by decide,
    (C10_indented_header_not_section initState [' ', ' '] ("main]".toList)
      (by decide) (by decide)).2 (by decide)⟩

end YumRepoInfo
